import Mathlib

/-!
# Stock portfolio dashboard (`src/src/App.js`)

A shallow embedding of the `App` component: its two state slots (`stocks`,
`formData`), its five event handlers and the derived `totalInvestment`.

* JavaScript numbers are IEEE-754 binary64 values (`Num`), with the two
  operations the component uses (`+` and `*`), rounded to nearest, ties to even.
* The outside world (`process.env`, `parseInt`, `parseFloat`, and what `axios`
  answers) is an explicit `Env` argument; a handler returns the effects it
  performed (requests, `console.error`) next to the new state.
* Each handler runs from its first line to its last on the state it started
  with: interleavings of two pending handlers are not modelled.
-/

namespace App

/-! ## JavaScript numbers -/

/-- Number of binary digits of `n`, with explicit fuel. -/
def bitsAux : Nat → Nat → Nat
  | 0, _ => 0
  | fuel + 1, n => if n = 0 then 0 else bitsAux fuel (n / 2) + 1

/-- Number of binary digits of `n` (`0` for `0`). -/
def bitLength (n : Nat) : Nat := bitsAux n n

/-- The integer nearest to `M / 2 ^ s`, ties going to the even one. -/
def roundShift (M s : Nat) : Nat :=
  let q := M / 2 ^ s
  let r := M % 2 ^ s
  let half := 2 ^ (s - 1)
  if half < r ∨ (r = half ∧ q % 2 = 1) then q + 1 else q

/-- A JavaScript number, that is an IEEE-754 binary64 value. `fin neg m e` is
the finite value `(-1)^neg * m * 2^e`. -/
inductive Num where
  | nan : Num
  | inf (neg : Bool) : Num
  | fin (neg : Bool) (m : Nat) (e : Int) : Num
deriving DecidableEq

namespace Num

/-- Whether the number is finite. -/
def isFinite : Num → Bool
  | fin _ _ _ => true
  | _ => false

/-- The significand `m` of a finite number. -/
def significand : Num → Nat
  | fin _ m _ => m
  | _ => 0

/-- The exponent `e` of a finite number. -/
def exponent : Num → Int
  | fin _ _ e => e
  | _ => 0

/-- The finite encodings binary64 really has: a 53-bit significand, an exponent
between `-1074` and `971`, and the leading bit set unless the value is
subnormal. -/
def Canonical (x : Num) : Prop :=
  x.isFinite = true ∧ x.significand < 2 ^ 53 ∧ -1074 ≤ x.exponent ∧ x.exponent ≤ 971 ∧
    (2 ^ 52 ≤ x.significand ∨ x.exponent = -1074)

instance (x : Num) : Decidable x.Canonical := by
  unfold Canonical
  infer_instance

/-- The rational a finite number stands for (`0` for `NaN` and the infinities,
which stand for none). -/
def value : Num → ℚ
  | fin neg m e => (if neg then -1 else 1) * (m : ℚ) * (2 : ℚ) ^ e
  | _ => 0

/-- The literal `0`. -/
def zero : Num := fin false 0 (-1074)

/-- Rounding of the exact magnitude `M * 2^E` with sign `neg` to binary64:
to nearest, ties to even, overflowing to an infinity. -/
def round (neg : Bool) (M : Nat) (E : Int) : Num :=
  if M = 0 then fin neg 0 (-1074)
  else
    let e := max (E + (bitLength M : Int) - 53) (-1074)
    let m := if e ≤ E then M * 2 ^ (E - e).toNat else roundShift M (e - E).toNat
    let m1 := if m = 2 ^ 53 then 2 ^ 52 else m
    let e1 := if m = 2 ^ 53 then e + 1 else e
    if 971 < e1 then inf neg else fin neg m1 e1

/-- JavaScript `a * b`. -/
def mul : Num → Num → Num
  | nan, _ => nan
  | _, nan => nan
  | inf s, inf t => inf (xor s t)
  | inf s, fin t n _ => if n = 0 then nan else inf (xor s t)
  | fin s m _, inf t => if m = 0 then nan else inf (xor s t)
  | fin s m e, fin t n f => round (xor s t) (m * n) (e + f)

/-- The integer `±k`. -/
def signed (neg : Bool) (k : Nat) : Int := if neg then -(k : Int) else (k : Int)

/-- JavaScript `a + b`. -/
def add : Num → Num → Num
  | nan, _ => nan
  | _, nan => nan
  | inf s, inf t => if s = t then inf s else nan
  | inf s, fin _ _ _ => inf s
  | fin _ _ _, inf t => inf t
  | fin s m e, fin t n f =>
    let g := min e f
    let c := signed s (m * 2 ^ (e - g).toNat) + signed t (n * 2 ^ (f - g).toNat)
    if c = 0 then fin (s && t) 0 (-1074) else round (decide (c < 0)) c.natAbs g

end Num

/-! ## Data model -/

/-- A holding as the backend returns it. -/
structure Holding where
  id : String
  name : String
  ticker : String
  quantity : Num
  buyPrice : Num
deriving DecidableEq

/-- What a numeric form field holds: the text the user typed, or the number
copied from a holding by `handleEdit`. -/
inductive Field where
  | text (s : String) : Field
  | num (x : Num) : Field
deriving DecidableEq

/-- The form draft, `formData`. -/
structure Draft where
  id : String
  name : String
  ticker : String
  quantity : Field
  buyPrice : Field
deriving DecidableEq

/-- The value of `useState` for `formData`, also the value written after a
successful submit (lines 7-13 and 57). -/
def emptyDraft : Draft :=
  { id := "", name := "", ticker := "", quantity := .text "", buyPrice := .text "" }

/-- A holding read as a draft, field by field: what `setFormData(stock)` stores. -/
def Holding.toDraft (h : Holding) : Draft :=
  { id := h.id, name := h.name, ticker := h.ticker,
    quantity := .num h.quantity, buyPrice := .num h.buyPrice }

/-- Property lookup on the draft: `formData[key]` for the five properties the
component reads, `none` for any other key. -/
def Draft.get (d : Draft) (key : String) : Option Field :=
  if key = "id" then some (.text d.id)
  else if key = "name" then some (.text d.name)
  else if key = "ticker" then some (.text d.ticker)
  else if key = "quantity" then some d.quantity
  else if key = "buyPrice" then some d.buyPrice
  else none

/-- The two state slots of the component. -/
structure State where
  stocks : List Holding
  formData : Draft
deriving DecidableEq

/-- The state at mount: `useState([])` and the empty draft. -/
def State.init : State := { stocks := [], formData := emptyDraft }

/-- The request body built by `handleFormSubmit` (lines 40-45). -/
structure Payload where
  name : String
  ticker : String
  quantity : Num
  buyPrice : Num
deriving DecidableEq

/-- Everything the component takes from outside: the environment variable,
the two built-in parsers, and the answer of the backend to each `axios` call
(`Except.error` when the call throws). -/
structure Env where
  REACT_APP_BACKEND_URL : Option String
  parseInt : Field → Num
  parseFloat : Field → Num
  get : String → Except String (List Holding)
  post : String → Payload → Except String Holding
  put : String → Payload → Except String Holding
  delete : String → Except String Unit

/-- The effects a handler performs, in order. -/
inductive Effect where
  | GET (url : String) : Effect
  | POST (url : String) (body : Payload) : Effect
  | PUT (url : String) (body : Payload) : Effect
  | DELETE (url : String) : Effect
  | consoleError (msg : String) (error : String) : Effect
deriving DecidableEq

/-! ## The component -/

/-- JavaScript truthiness of a string: non-empty. -/
def truthy (s : String) : Bool := decide (s ≠ "")

/-- Line 15: the environment value if truthy, else the local default. -/
def backendURL (env : Env) : String :=
  match env.REACT_APP_BACKEND_URL with
  | some u => if truthy u then u else "http://localhost:8080/api/stocks"
  | none => "http://localhost:8080/api/stocks"

/-- Lines 19-26. -/
def fetchStocks (env : Env) (st : State) : List Effect × State :=
  match env.get (backendURL env) with
  | .ok data => ([.GET (backendURL env)], { st with stocks := data })
  | .error error =>
    ([.GET (backendURL env), .consoleError "Error fetching stocks:" error], st)

/-- Lines 32-35: the draft with the property `name` set to `value`. A property
other than the five the component reads is stored by JavaScript too, but
nothing reads it, and the draft here does not keep it. -/
def handleInputChange (st : State) (name value : String) : State :=
  if name = "id" then { st with formData := { st.formData with id := value } }
  else if name = "name" then { st with formData := { st.formData with name := value } }
  else if name = "ticker" then { st with formData := { st.formData with ticker := value } }
  else if name = "quantity" then
    { st with formData := { st.formData with quantity := .text value } }
  else if name = "buyPrice" then
    { st with formData := { st.formData with buyPrice := .text value } }
  else st

/-- Lines 40-45: the request body, the two numeric fields parsed. -/
def submitPayload (env : Env) (formData : Draft) : Payload :=
  { name := formData.name,
    ticker := formData.ticker,
    quantity := env.parseInt formData.quantity,
    buyPrice := env.parseFloat formData.buyPrice }

/-- Lines 38-62. -/
def handleFormSubmit (env : Env) (st : State) : List Effect × State :=
  let payload := submitPayload env st.formData
  if truthy st.formData.id then
    let url := backendURL env ++ "/" ++ st.formData.id
    match env.put url payload with
    | .ok data =>
      ([.PUT url payload],
        { stocks := st.stocks.map
            (fun stock => if stock.id = st.formData.id then data else stock),
          formData := emptyDraft })
    | .error error => ([.PUT url payload, .consoleError "Error saving stock:" error], st)
  else
    match env.post (backendURL env) payload with
    | .ok data =>
      ([.POST (backendURL env) payload],
        { stocks := st.stocks ++ [data], formData := emptyDraft })
    | .error error =>
      ([.POST (backendURL env) payload, .consoleError "Error saving stock:" error], st)

/-- Lines 65-68. When no holding has the id, `find` gives `undefined`, which
becomes the draft, and the next render throws on `formData.id`: the result is
`none`, the component is gone. -/
def handleEdit (st : State) (id : String) : Option State :=
  match st.stocks.find? (fun stock => decide (stock.id = id)) with
  | some stock => some { st with formData := stock.toDraft }
  | none => none

/-- Lines 71-78. -/
def handleDelete (env : Env) (st : State) (id : String) : List Effect × State :=
  let url := backendURL env ++ "/" ++ id
  match env.delete url with
  | .ok _ =>
    ([.DELETE url],
      { st with stocks := st.stocks.filter (fun stock => decide (stock.id ≠ id)) })
  | .error error => ([.DELETE url, .consoleError "Error deleting stock:" error], st)

/-- Lines 81-84. -/
def totalInvestment (stocks : List Holding) : Num :=
  stocks.foldl (fun total stock => Num.add total (Num.mul stock.quantity stock.buyPrice))
    Num.zero

/-- Line 97: the heading of the form. -/
def formHeading (formData : Draft) : String :=
  if truthy formData.id then "Edit Stock" else "Add Stock"

/-- Line 132: the label of the submit button. -/
def submitLabel (formData : Draft) : String :=
  if truthy formData.id then "Update" else "Add"

/-- The sum the specification speaks of: the exact sum over the list of
quantity times buy price, no rounding anywhere. -/
def exactTotal (stocks : List Holding) : ℚ :=
  (stocks.map (fun stock => stock.quantity.value * stock.buyPrice.value)).sum

/-! ## Runs of the component -/

/-- One thing that happens to the component: the fetch of the mount effect, or
a user event, each remote one with the world it meets. -/
inductive Event where
  | fetch (env : Env) : Event
  | change (name value : String) : Event
  | submit (env : Env) : Event
  | edit (id : String) : Event
  | delete (env : Env) (id : String) : Event

/-- The state after one event, `none` when the component is gone. -/
def step (st : State) : Event → Option State
  | .fetch env => some (fetchStocks env st).2
  | .change name value => some (handleInputChange st name value)
  | .submit env => some (handleFormSubmit env st).2
  | .edit id => handleEdit st id
  | .delete env id => some (handleDelete env st id).2

/-- The state after a sequence of events. -/
def run (st : State) : List Event → Option State
  | [] => some st
  | ev :: evs => (step st ev).bind (fun st1 => run st1 evs)

/-- The backend hands out holdings with a non-empty id only, in the answers
the component puts in its list (to `GET`, `POST` and `PUT`). -/
def Env.AssignsIds (env : Env) : Prop :=
  (∀ url data, env.get url = .ok data → ∀ h ∈ data, h.id ≠ "") ∧
  (∀ url body data, env.post url body = .ok data → data.id ≠ "") ∧
  (∀ url body data, env.put url body = .ok data → data.id ≠ "")

/-- The worlds an event meets. -/
def Event.env? : Event → Option Env
  | .fetch env => some env
  | .submit env => some env
  | .delete env _ => some env
  | _ => none

/-! ## Sample data -/

/-- The double nearest to the integer `n`. -/
def Num.ofNat (n : Nat) : Num := Num.round false n 0

/-- A holding of ten shares bought at 5.00. -/
def acme : Holding :=
  { id := "42", name := "Acme", ticker := "ACM",
    quantity := Num.ofNat 10, buyPrice := Num.ofNat 5 }

/-- A holding of two shares bought at 100.00. -/
def bolt : Holding :=
  { id := "7", name := "Bolt", ticker := "BLT",
    quantity := Num.ofNat 2, buyPrice := Num.ofNat 100 }

/-- A holding as a backend answers a create. -/
def core : Holding :=
  { id := "9", name := "Core", ticker := "COR",
    quantity := Num.ofNat 1, buyPrice := Num.ofNat 3 }

/-- The holding `bolt` as a backend answers an update of it. -/
def bolt3 : Holding :=
  { id := "7", name := "Bolt", ticker := "BLT",
    quantity := Num.ofNat 3, buyPrice := Num.ofNat 100 }

/-- A second holding under the id of `acme`. -/
def twin : Holding :=
  { id := "42", name := "Twin", ticker := "TWN",
    quantity := Num.ofNat 4, buyPrice := Num.ofNat 8 }

/-- A holding whose id is the empty string. -/
def blank : Holding :=
  { id := "", name := "Blank", ticker := "BLK",
    quantity := Num.ofNat 1, buyPrice := Num.ofNat 1 }

/-- The binary64 value of the literal `0.1`, `0x3FB999999999999A`. -/
def tenth : Num := Num.fin false 7205759403792794 (-56)

/-- A holding of three shares bought at 0.10. -/
def dime : Holding :=
  { id := "3", name := "Dime", ticker := "DME",
    quantity := Num.ofNat 3, buyPrice := tenth }

/-- A stand-in for `parseInt` and `parseFloat`: right on the text of a natural
number and on a number that is an integer, `NaN` on other text. -/
def parseSample : Field → Num
  | .text s => match s.toNat? with
    | some n => Num.ofNat n
    | none => Num.nan
  | .num x => x

/-- A world where every call succeeds: the list is `[acme, bolt]`, a create
answers `core`, an update answers `bolt3`. -/
def okEnv : Env :=
  { REACT_APP_BACKEND_URL := none,
    parseInt := parseSample,
    parseFloat := parseSample,
    get := fun _ => .ok [acme, bolt],
    post := fun _ _ => .ok core,
    put := fun _ _ => .ok bolt3,
    delete := fun _ => .ok () }

/-- A world where every call throws. -/
def downEnv : Env :=
  { REACT_APP_BACKEND_URL := none,
    parseInt := parseSample,
    parseFloat := parseSample,
    get := fun _ => .error "Network Error",
    post := fun _ _ => .error "Network Error",
    put := fun _ _ => .error "Network Error",
    delete := fun _ => .error "Network Error" }

/-- A world whose backend lists a holding without an id. -/
def blankEnv : Env :=
  { okEnv with get := fun _ => .ok [blank] }

/-- A draft being typed, in create mode. -/
def typed : Draft :=
  { id := "", name := "Core", ticker := "COR", quantity := .text "1", buyPrice := .text "3" }

/-- The list `[acme, bolt]` with a typed draft, in create mode. -/
def adding : State := { stocks := [acme, bolt], formData := typed }

/-- The list `[acme, bolt]` with `bolt` in the form, in update mode. -/
def editing : State := { stocks := [acme, bolt], formData := bolt.toDraft }

/-- The list `[acme]` with `bolt` in the form: the row being edited is gone. -/
def orphaned : State := { stocks := [acme], formData := bolt.toDraft }

/-! ## Rounding is exact on what binary64 can hold -/

theorem bitsAux_zero (fuel : Nat) : bitsAux fuel 0 = 0 := by
  cases fuel <;> simp [bitsAux]

theorem bitsAux_bounds : ∀ fuel n : Nat, n ≤ fuel → n ≠ 0 →
    2 ^ bitsAux fuel n ≤ 2 * n ∧ n < 2 ^ bitsAux fuel n
  | 0, n, hle, hne => absurd (Nat.le_zero.mp hle) hne
  | fuel + 1, n, hle, hne => by
    rw [bitsAux, if_neg hne]
    by_cases hhalf : n / 2 = 0
    · have hone : n = 1 := by omega
      subst hone
      simp [bitsAux_zero]
    · obtain ⟨hlow, hhigh⟩ := bitsAux_bounds fuel (n / 2) (by omega) hhalf
      rw [pow_succ]
      constructor <;> omega

/-- The bit length of `n` is the `k` with `2 ^ (k - 1) ≤ n < 2 ^ k`. -/
theorem bitLength_eq (n k : Nat) (hlow : 2 ^ k ≤ 2 * n) (hhigh : n < 2 ^ k) :
    bitLength n = k := by
  have hpos : 0 < 2 ^ k := Nat.pow_pos (by norm_num)
  have hne : n ≠ 0 := by omega
  obtain ⟨h1, h2⟩ := bitsAux_bounds n n le_rfl hne
  have ha : bitLength n < k + 1 := by
    apply (Nat.pow_lt_pow_iff_right (by norm_num : 1 < 2)).mp
    rw [pow_succ]
    unfold bitLength
    omega
  have hb : k < bitLength n + 1 := by
    apply (Nat.pow_lt_pow_iff_right (by norm_num : 1 < 2)).mp
    rw [pow_succ]
    unfold bitLength
    omega
  omega

theorem bitLength_bounds (n : Nat) (hne : n ≠ 0) :
    2 ^ bitLength n ≤ 2 * n ∧ n < 2 ^ bitLength n :=
  bitsAux_bounds n n le_rfl hne

theorem bitLength_shift (m k : Nat) (hm : m ≠ 0) :
    bitLength (m * 2 ^ k) = bitLength m + k := by
  obtain ⟨h1, h2⟩ := bitLength_bounds m hm
  have hpos : 0 < 2 ^ k := Nat.pow_pos (by norm_num)
  apply bitLength_eq
  · rw [pow_add]
    calc 2 ^ bitLength m * 2 ^ k ≤ 2 * m * 2 ^ k := Nat.mul_le_mul_right _ h1
      _ = 2 * (m * 2 ^ k) := by ring
  · rw [pow_add]
    exact Nat.mul_lt_mul_of_pos_right h2 hpos

theorem roundShift_shift (m k : Nat) : roundShift (m * 2 ^ k) k = m := by
  have hpos : 0 < 2 ^ k := Nat.pow_pos (by norm_num)
  have hhalf : 0 < 2 ^ (k - 1) := Nat.pow_pos (by norm_num)
  have hq : m * 2 ^ k / 2 ^ k = m := Nat.mul_div_cancel m hpos
  have hr : m * 2 ^ k % 2 ^ k = 0 := Nat.mul_mod_left m (2 ^ k)
  unfold roundShift
  simp only [hq, hr]
  rw [if_neg]
  rintro (h | ⟨h, -⟩) <;> omega

/-- The exponent `round` picks, when the magnitude is one binary64 holds. -/
theorem exponent_exact (M : Nat) (E : Int) (m : Nat) (e : Int) (hm : m ≠ 0)
    (hc : m < 2 ^ 53 ∧ -1074 ≤ e ∧ e ≤ 971 ∧ (2 ^ 52 ≤ m ∨ e = -1074))
    (hbits : (bitLength M : Int) + E = (bitLength m : Int) + e) :
    max (E + (bitLength M : Int) - 53) (-1074) = e := by
  obtain ⟨hlt, hlo, -, hnorm⟩ := hc
  obtain ⟨h1, h2⟩ := bitLength_bounds m hm
  have hle : bitLength m < 54 := by
    apply (Nat.pow_lt_pow_iff_right (by norm_num : 1 < 2)).mp
    omega
  rcases hnorm with hnorm | hsub
  · have h53 : bitLength m = 53 := bitLength_eq m 53 (by omega) hlt
    rw [h53] at hbits
    rw [max_eq_left] <;> omega
  · rw [max_eq_right] <;> omega

theorem scale_down (M m : Nat) (E e : Int) (hle : E ≤ e)
    (hval : (M : ℚ) * 2 ^ E = (m : ℚ) * 2 ^ e) : M = m * 2 ^ (e - E).toNat := by
  have he : e = E + ((e - E).toNat : Int) := by
    rw [Int.toNat_of_nonneg (by omega)]
    omega
  have h2 : (2 : ℚ) ^ e = 2 ^ E * 2 ^ (e - E).toNat := by
    conv_lhs => rw [he]
    rw [zpow_add₀ (by norm_num), zpow_natCast]
  have hpos : (2 : ℚ) ^ E ≠ 0 := zpow_ne_zero _ (by norm_num)
  rw [h2, ← mul_assoc, mul_comm (m : ℚ), mul_assoc, mul_comm (M : ℚ)] at hval
  have hcast : (M : ℚ) = (m : ℚ) * 2 ^ (e - E).toNat := mul_left_cancel₀ hpos hval
  exact_mod_cast hcast

namespace Num

/-- A magnitude that binary64 holds is rounded to itself. -/
theorem round_exact (neg : Bool) (M : Nat) (E : Int) (m : Nat) (e : Int) (hm : m ≠ 0)
    (hc : (fin neg m e).Canonical)
    (hval : (M : ℚ) * 2 ^ E = (m : ℚ) * 2 ^ e) : round neg M E = fin neg m e := by
  have hM : M ≠ 0 := by
    rintro rfl
    have hpos : (0 : ℚ) < (m : ℚ) * 2 ^ e := by
      have : (0 : ℚ) < m := by exact_mod_cast Nat.pos_of_ne_zero hm
      positivity
    simp at hval
    rcases hval with h | h
    · exact hm h
    · exact absurd h (zpow_ne_zero _ (by norm_num))
  have hc1 : m < 2 ^ 53 ∧ -1074 ≤ e ∧ e ≤ 971 ∧ (2 ^ 52 ≤ m ∨ e = -1074) := hc.2
  have hlt : m < 2 ^ 53 := hc1.1
  have hlo : -1074 ≤ e := hc1.2.1
  have hhi : e ≤ 971 := hc1.2.2.1
  have key : max (E + (bitLength M : Int) - 53) (-1074) = e ∧
      (if e ≤ E then M * 2 ^ (E - e).toNat else roundShift M (e - E).toNat) = m := by
    rcases le_total E e with hle | hle
    · have hMm := scale_down M m E e hle hval
      have hbits : bitLength M = bitLength m + (e - E).toNat := by
        rw [hMm]
        exact bitLength_shift m _ hm
      refine ⟨exponent_exact M E m e hm hc1 (by rw [hbits]; push_cast; omega), ?_⟩
      by_cases heq : e ≤ E
      · have h0 : (e - E).toNat = 0 := by omega
        have h1 : (E - e).toNat = 0 := by omega
        rw [if_pos heq, h1, hMm, h0]
        simp
      · rw [if_neg heq, hMm]
        exact roundShift_shift m _
    · have hMm := scale_down m M e E hle hval.symm
      have hbits : bitLength m = bitLength M + (E - e).toNat := by
        rw [hMm]
        exact bitLength_shift M _ hM
      refine ⟨exponent_exact M E m e hm hc1 (by rw [hbits]; push_cast; omega), ?_⟩
      rw [if_pos hle]
      exact hMm.symm
  obtain ⟨hexp, hsig⟩ := key
  have hne : m ≠ 2 ^ 53 := by omega
  have hnot : ¬ (971 < e) := by omega
  unfold round
  simp only [if_neg hM, hexp, hsig, if_neg hne, if_neg hnot]

/-- When binary64 holds the exact signed magnitude, `round` returns it. -/
theorem round_value (neg : Bool) (M : Nat) (E : Int) (x : Num) (hx : x.Canonical)
    (hval : x.value = (if neg then -1 else 1) * (M : ℚ) * 2 ^ E) :
    (round neg M E).Canonical ∧
      (round neg M E).value = (if neg then -1 else 1) * (M : ℚ) * 2 ^ E := by
  by_cases hM : M = 0
  · subst hM
    refine ⟨?_, ?_⟩
    · simp [round, Canonical, isFinite, significand, exponent]
    · simp [round, value]
  · cases x with
    | nan => exact absurd hx (by simp [Canonical, isFinite])
    | inf s => exact absurd hx (by simp [Canonical, isFinite])
    | fin u k h =>
      have hMpos : (0 : ℚ) < (M : ℚ) * 2 ^ E := by
        have : (0 : ℚ) < M := by exact_mod_cast Nat.pos_of_ne_zero hM
        positivity
      have hk : k ≠ 0 := by
        rintro rfl
        simp only [value, Nat.cast_zero, mul_zero, zero_mul] at hval
        cases neg <;> simp at hval <;> rcases hval with h1 | h1 <;>
          first
            | exact hM h1
            | exact absurd h1 (zpow_ne_zero _ (by norm_num))
      have hkpos : (0 : ℚ) < (k : ℚ) * 2 ^ h := by
        have : (0 : ℚ) < k := by exact_mod_cast Nat.pos_of_ne_zero hk
        positivity
      have hsign : u = neg ∧ (M : ℚ) * 2 ^ E = (k : ℚ) * 2 ^ h := by
        simp only [value] at hval
        cases u <;> cases neg <;> simp at hval <;>
          first
            | exact ⟨rfl, by linarith⟩
            | (exfalso; linarith)
      obtain ⟨rfl, hmag⟩ := hsign
      have hround := round_exact u M E k h hk hx hmag
      rw [hround]
      exact ⟨hx, hval⟩

/-- A product that binary64 holds is computed exactly. -/
theorem mul_exact (a b x : Num) (ha : a.Canonical) (hb : b.Canonical) (hx : x.Canonical)
    (hval : x.value = a.value * b.value) :
    (mul a b).Canonical ∧ (mul a b).value = a.value * b.value := by
  cases a with
  | nan => exact absurd ha (by simp [Canonical, isFinite])
  | inf s => exact absurd ha (by simp [Canonical, isFinite])
  | fin s m e =>
    cases b with
    | nan => exact absurd hb (by simp [Canonical, isFinite])
    | inf t => exact absurd hb (by simp [Canonical, isFinite])
    | fin t n f =>
      have hprod : (fin s m e).value * (fin t n f).value
          = (if xor s t then -1 else 1) * ((m * n : Nat) : ℚ) * 2 ^ (e + f) := by
        simp only [value]
        rw [zpow_add₀ (by norm_num : (2 : ℚ) ≠ 0)]
        push_cast
        cases s <;> cases t <;> simp <;> ring
      rw [hprod] at hval ⊢
      exact round_value (xor s t) (m * n) (e + f) x hx hval

theorem signed_cast (neg : Bool) (k : Nat) :
    ((signed neg k : Int) : ℚ) = (if neg then -1 else 1) * (k : ℚ) := by
  cases neg <;> simp [signed]

theorem aligned (m : Nat) (e g : Int) (hg : g ≤ e) :
    ((m * 2 ^ (e - g).toNat : Nat) : ℚ) * 2 ^ g = (m : ℚ) * 2 ^ e := by
  have he : e = g + ((e - g).toNat : Int) := by
    rw [Int.toNat_of_nonneg (by omega)]
    omega
  conv_rhs => rw [he]
  rw [zpow_add₀ (by norm_num : (2 : ℚ) ≠ 0), zpow_natCast]
  push_cast
  ring

/-- A sum that binary64 holds is computed exactly. -/
theorem add_exact (a b x : Num) (ha : a.Canonical) (hb : b.Canonical) (hx : x.Canonical)
    (hval : x.value = a.value + b.value) :
    (add a b).Canonical ∧ (add a b).value = a.value + b.value := by
  cases a with
  | nan => exact absurd ha (by simp [Canonical, isFinite])
  | inf s => exact absurd ha (by simp [Canonical, isFinite])
  | fin s m e =>
    cases b with
    | nan => exact absurd hb (by simp [Canonical, isFinite])
    | inf t => exact absurd hb (by simp [Canonical, isFinite])
    | fin t n f =>
      have hsum : (fin s m e).value + (fin t n f).value
          = ((signed s (m * 2 ^ (e - min e f).toNat)
              + signed t (n * 2 ^ (f - min e f).toNat) : Int) : ℚ) * 2 ^ (min e f) := by
        have h1 := aligned m e (min e f) (min_le_left e f)
        have h2 := aligned n f (min e f) (min_le_right e f)
        simp only [value]
        rw [Int.cast_add, signed_cast, signed_cast]
        linear_combination (-(if s then -1 else 1 : ℚ)) * h1 - (if t then -1 else 1 : ℚ) * h2
      rw [hsum] at hval ⊢
      unfold add
      simp only []
      by_cases hc : signed s (m * 2 ^ (e - min e f).toNat)
          + signed t (n * 2 ^ (f - min e f).toNat) = 0
      · rw [if_pos hc, hc]
        refine ⟨by simp [Canonical, isFinite, significand, exponent], by simp [value]⟩
      · rw [if_neg hc]
        have habs : ∀ c : Int, (c : ℚ)
            = (if decide (c < 0) then -1 else 1) * ((c.natAbs : Nat) : ℚ) := by
          intro c
          rcases lt_or_le c 0 with hneg | hpos
          · have : ((c.natAbs : Nat) : Int) = -c := by omega
            have hq : ((c.natAbs : Nat) : ℚ) = -(c : ℚ) := by
              rw [← Int.cast_natCast, this, Int.cast_neg]
            simp [hneg, hq]
          · have : ((c.natAbs : Nat) : Int) = c := by omega
            have hq : ((c.natAbs : Nat) : ℚ) = (c : ℚ) := by
              rw [← Int.cast_natCast, this]
            simp [not_lt.mpr hpos, hq]
        rw [habs (signed s (m * 2 ^ (e - min e f).toNat)
          + signed t (n * 2 ^ (f - min e f).toNat))] at hval ⊢
        exact round_value _ _ _ x hx hval

end Num

/-! ## Total investment -/

/-- The fold of `totalInvestment` from any exact start is exact, as long as
binary64 holds every product and every running total. -/
theorem foldl_exact (stocks : List Holding) : ∀ acc : Num, acc.Canonical →
    (∀ h ∈ stocks, h.quantity.Canonical ∧ h.buyPrice.Canonical) →
    (∀ h ∈ stocks, ∃ x : Num, x.Canonical ∧ x.value = h.quantity.value * h.buyPrice.value) →
    (∀ k, k ≤ stocks.length →
      ∃ x : Num, x.Canonical ∧ x.value = acc.value + exactTotal (stocks.take k)) →
    (stocks.foldl
        (fun total stock => Num.add total (Num.mul stock.quantity stock.buyPrice))
        acc).Canonical ∧
      (stocks.foldl
        (fun total stock => Num.add total (Num.mul stock.quantity stock.buyPrice))
        acc).value = acc.value + exactTotal stocks := by
  induction stocks with
  | nil =>
    intro acc hacc _ _ _
    simp [exactTotal, hacc]
  | cons h rest ih =>
    intro acc hacc hfields hprod hsum
    obtain ⟨hq, hp⟩ := hfields h (List.mem_cons_self _ _)
    obtain ⟨x, hx, hxval⟩ := hprod h (List.mem_cons_self _ _)
    obtain ⟨hmulc, hmulv⟩ := Num.mul_exact h.quantity h.buyPrice x hq hp hx hxval
    obtain ⟨y, hy, hyval⟩ := hsum 1 (by simp)
    have hone : exactTotal (List.take 1 (h :: rest))
        = h.quantity.value * h.buyPrice.value := by
      simp [exactTotal]
    rw [hone, ← hmulv] at hyval
    obtain ⟨haddc, haddv⟩ := Num.add_exact acc (Num.mul h.quantity h.buyPrice) y hacc hmulc hy hyval
    have hrest := ih (Num.add acc (Num.mul h.quantity h.buyPrice)) haddc
      (fun h1 hmem => hfields h1 (List.mem_cons_of_mem _ hmem))
      (fun h1 hmem => hprod h1 (List.mem_cons_of_mem _ hmem))
      (by
        intro k hk
        obtain ⟨z, hz, hzval⟩ := hsum (k + 1) (by simpa using hk)
        refine ⟨z, hz, ?_⟩
        rw [hzval, haddv, hmulv]
        simp [exactTotal, add_assoc])
    rw [List.foldl_cons]
    refine ⟨hrest.1, ?_⟩
    rw [hrest.2, haddv, hmulv]
    simp [exactTotal, add_assoc]

/-- C1, as amended: `totalInvestment` is the exact sum over the list of
quantity times buy price whenever binary64 holds every product and every
running total exactly (the numbers of the list being binary64 values); for the
empty list this is `0`. -/
theorem totalInvestment_exact (stocks : List Holding)
    (hfields : ∀ h ∈ stocks, h.quantity.Canonical ∧ h.buyPrice.Canonical)
    (hprod : ∀ h ∈ stocks,
      ∃ x : Num, x.Canonical ∧ x.value = h.quantity.value * h.buyPrice.value)
    (hsum : ∀ k, k ≤ stocks.length →
      ∃ x : Num, x.Canonical ∧ x.value = exactTotal (stocks.take k)) :
    (totalInvestment stocks).Canonical ∧
      (totalInvestment stocks).value = exactTotal stocks := by
  have hzero : Num.zero.value = 0 := by simp [Num.zero, Num.value]
  have h := foldl_exact stocks Num.zero (by decide) hfields hprod
    (by
      intro k hk
      obtain ⟨x, hx, hxval⟩ := hsum k hk
      exact ⟨x, hx, by rw [hxval, hzero, zero_add]⟩)
  rw [hzero, zero_add] at h
  exact h

theorem value_fin (neg : Bool) (m : Nat) (e : Int) :
    (Num.fin neg m e).value = (if neg then -1 else 1) * (m : ℚ) * 2 ^ e := rfl

/-- C1 at the list of the specification: ten shares at 5.00 and two at
100.00 make 250. -/
theorem totalInvestment_exact_witness :
    totalInvestment [acme, bolt] = Num.ofNat 250 ∧
      (totalInvestment [acme, bolt]).Canonical ∧
      (totalInvestment [acme, bolt]).value = exactTotal [acme, bolt] ∧
      exactTotal [acme, bolt] = 250 := by
  have h10 : Num.ofNat 10 = Num.fin false 5629499534213120 (-49) := by decide!
  have h5 : Num.ofNat 5 = Num.fin false 5629499534213120 (-50) := by decide!
  have h2 : Num.ofNat 2 = Num.fin false 4503599627370496 (-51) := by decide!
  have h100 : Num.ofNat 100 = Num.fin false 7036874417766400 (-46) := by decide!
  have h50 : Num.ofNat 50 = Num.fin false 7036874417766400 (-47) := by decide!
  have h200 : Num.ofNat 200 = Num.fin false 7036874417766400 (-45) := by decide!
  have h250 : Num.ofNat 250 = Num.fin false 8796093022208000 (-45) := by decide!
  have hacme : acme.quantity.value * acme.buyPrice.value = 50 := by
    simp only [acme, h10, h5, value_fin]
    norm_num
  have hbolt : bolt.quantity.value * bolt.buyPrice.value = 200 := by
    simp only [bolt, h2, h100, value_fin]
    norm_num
  have hv50 : (Num.ofNat 50).value = 50 := by
    simp only [h50, value_fin]
    norm_num
  have hv200 : (Num.ofNat 200).value = 200 := by
    simp only [h200, value_fin]
    norm_num
  have hv250 : (Num.ofNat 250).value = 250 := by
    simp only [h250, value_fin]
    norm_num
  have htotal : exactTotal [acme, bolt] = 250 := by
    simp only [exactTotal, List.map_cons, List.map_nil, List.sum_cons, List.sum_nil, hacme,
      hbolt]
    norm_num
  have h := totalInvestment_exact [acme, bolt]
    (by
      intro h hmem
      simp only [List.mem_cons, List.mem_singleton, List.not_mem_nil, or_false] at hmem
      rcases hmem with rfl | rfl <;> exact ⟨by decide!, by decide!⟩)
    (by
      intro h hmem
      simp only [List.mem_cons, List.mem_singleton, List.not_mem_nil, or_false] at hmem
      rcases hmem with rfl | rfl
      · exact ⟨Num.ofNat 50, by decide!, by rw [hv50, hacme]⟩
      · exact ⟨Num.ofNat 200, by decide!, by rw [hv200, hbolt]⟩)
    (by
      intro k hk
      have hk2 : k = 0 ∨ k = 1 ∨ k = 2 := by
        simp only [List.length_cons, List.length_nil] at hk
        omega
      rcases hk2 with rfl | rfl | rfl
      · exact ⟨Num.zero, by decide, by simp [exactTotal, Num.zero, Num.value]⟩
      · refine ⟨Num.ofNat 50, by decide!, ?_⟩
        rw [hv50]
        simp [exactTotal, hacme]
      · refine ⟨Num.ofNat 250, by decide!, ?_⟩
        rw [hv250]
        exact htotal.symm)
  have hrun : totalInvestment [acme, bolt] = Num.fin false 8796093022208000 (-45) := by
    decide!
  have hfirst : totalInvestment [acme, bolt] = Num.ofNat 250 := by
    rw [hrun, h250]
  exact And.intro hfirst (And.intro h.1 (And.intro h.2 htotal))

/-- C1 as stated fails: for three shares bought at the binary64 value of 0.1
the component computes 0.30000000000000004, which is neither the exact
product of its two factors nor three tenths. -/
theorem totalInvestment_not_exact :
    dime.quantity.Canonical ∧ dime.buyPrice.Canonical ∧
      totalInvestment [dime] = Num.fin false 5404319552844596 (-54) ∧
      (totalInvestment [dime]).value ≠ exactTotal [dime] ∧
      (totalInvestment [dime]).value ≠ 3 / 10 := by
  have h3 : Num.ofNat 3 = Num.fin false 6755399441055744 (-51) := by decide!
  have hrun : totalInvestment [dime] = Num.fin false 5404319552844596 (-54) := by decide!
  refine ⟨by decide!, by decide, hrun, ?_, ?_⟩
  · rw [hrun]
    simp only [exactTotal, List.map_cons, List.map_nil, List.sum_cons, List.sum_nil, dime,
      tenth, h3, value_fin]
    norm_num
  · rw [hrun]
    simp only [value_fin]
    norm_num

/-! ## Submit -/

/-- C2: with an empty draft id, a successful `handleFormSubmit` performs one
`POST` to the base URL and nothing else (no `PUT`), and the new list is the old
one with the response appended at the end: one longer, every earlier entry at
its position, the response last. -/
theorem handleFormSubmit_create (env : Env) (st : State) (data : Holding)
    (hid : st.formData.id = "")
    (hok : env.post (backendURL env) (submitPayload env st.formData) = .ok data) :
    (handleFormSubmit env st).1
        = [Effect.POST (backendURL env) (submitPayload env st.formData)] ∧
      (handleFormSubmit env st).2.stocks = st.stocks ++ [data] ∧
      (handleFormSubmit env st).2.stocks.length = st.stocks.length + 1 ∧
      (∀ i, i < st.stocks.length →
        (handleFormSubmit env st).2.stocks[i]? = st.stocks[i]?) ∧
      (handleFormSubmit env st).2.stocks[st.stocks.length]? = some data := by
  have hrun : handleFormSubmit env st
      = ([Effect.POST (backendURL env) (submitPayload env st.formData)],
          { stocks := st.stocks ++ [data], formData := emptyDraft }) := by
    simp [handleFormSubmit, truthy, hid, hok]
  rw [hrun]
  refine ⟨rfl, rfl, by simp, ?_, by simp⟩
  intro i hi
  simp [List.getElem?_append_left hi]

/-- C2 at the list of two holdings with a typed draft: one `POST`, and the
created holding third. -/
theorem handleFormSubmit_create_witness :
    adding.formData.id = "" ∧
      okEnv.post (backendURL okEnv) (submitPayload okEnv adding.formData) = .ok core ∧
      (handleFormSubmit okEnv adding).1
        = [Effect.POST "http://localhost:8080/api/stocks"
            (submitPayload okEnv adding.formData)] ∧
      (handleFormSubmit okEnv adding).2.stocks = [acme, bolt, core] :=
  ⟨rfl, rfl, (handleFormSubmit_create okEnv adding core rfl rfl).1,
    (handleFormSubmit_create okEnv adding core rfl rfl).2.1⟩

/-- C3: with a non-empty draft id, a successful `handleFormSubmit` performs one
`PUT` to the base URL followed by a slash and the id, and nothing else (no
`POST`); the list keeps its length, every entry with the draft id is replaced
in place by the response, every other entry stays where and what it was. -/
theorem handleFormSubmit_update (env : Env) (st : State) (data : Holding)
    (hid : st.formData.id ≠ "")
    (hok : env.put (backendURL env ++ "/" ++ st.formData.id)
      (submitPayload env st.formData) = .ok data) :
    (handleFormSubmit env st).1
        = [Effect.PUT (backendURL env ++ "/" ++ st.formData.id)
            (submitPayload env st.formData)] ∧
      (handleFormSubmit env st).2.stocks.length = st.stocks.length ∧
      (∀ (i : Nat) (stock : Holding), st.stocks[i]? = some stock →
        (stock.id = st.formData.id → (handleFormSubmit env st).2.stocks[i]? = some data) ∧
        (stock.id ≠ st.formData.id →
          (handleFormSubmit env st).2.stocks[i]? = some stock)) := by
  have hrun : handleFormSubmit env st
      = ([Effect.PUT (backendURL env ++ "/" ++ st.formData.id)
            (submitPayload env st.formData)],
          { stocks := st.stocks.map
              (fun stock => if stock.id = st.formData.id then data else stock),
            formData := emptyDraft }) := by
    simp [handleFormSubmit, truthy, hid, hok]
  rw [hrun]
  refine ⟨rfl, by simp, ?_⟩
  intro i stock hget
  constructor
  · intro heq
    simp [List.getElem?_map, hget, heq]
  · intro hne
    simp [List.getElem?_map, hget, hne]

/-- C3 at the list of two holdings with the second in the form: one `PUT`
under its id, the first entry kept, the second replaced. -/
theorem handleFormSubmit_update_witness :
    editing.formData.id ≠ "" ∧
      okEnv.put (backendURL okEnv ++ "/" ++ editing.formData.id)
        (submitPayload okEnv editing.formData) = .ok bolt3 ∧
      (handleFormSubmit okEnv editing).1
        = [Effect.PUT "http://localhost:8080/api/stocks/7"
            (submitPayload okEnv editing.formData)] ∧
      (handleFormSubmit okEnv editing).2.stocks[0]? = some acme ∧
      (handleFormSubmit okEnv editing).2.stocks[1]? = some bolt3 :=
  have h := handleFormSubmit_update okEnv editing bolt3 (by decide) rfl
  ⟨by decide, rfl, h.1, (h.2.2 0 acme rfl).2 (by decide), (h.2.2 1 bolt rfl).1 rfl⟩

/-- C8: after a successful `handleFormSubmit`, whichever branch it took and
whatever the draft held, the draft is the all-empty record, and the form shows
create mode. -/
theorem handleFormSubmit_resets_draft (env : Env) (st : State) (data : Holding)
    (hok : (st.formData.id ≠ "" ∧
        env.put (backendURL env ++ "/" ++ st.formData.id)
          (submitPayload env st.formData) = .ok data) ∨
      (st.formData.id = "" ∧
        env.post (backendURL env) (submitPayload env st.formData) = .ok data)) :
    (handleFormSubmit env st).2.formData
        = { id := "", name := "", ticker := "",
            quantity := Field.text "", buyPrice := Field.text "" } ∧
      submitLabel (handleFormSubmit env st).2.formData = "Add" ∧
      formHeading (handleFormSubmit env st).2.formData = "Add Stock" := by
  have hdraft : (handleFormSubmit env st).2.formData = emptyDraft := by
    rcases hok with ⟨hid, hput⟩ | ⟨hid, hpost⟩
    · simp [handleFormSubmit, truthy, hid, hput]
    · simp [handleFormSubmit, truthy, hid, hpost]
  rw [hdraft]
  exact ⟨rfl, by decide, by decide⟩

/-- C8 at a successful update: the draft that held `bolt` is empty again. -/
theorem handleFormSubmit_resets_draft_witness :
    (editing.formData.id ≠ "" ∧
        okEnv.put (backendURL okEnv ++ "/" ++ editing.formData.id)
          (submitPayload okEnv editing.formData) = .ok bolt3) ∧
      (handleFormSubmit okEnv editing).2.formData
        = { id := "", name := "", ticker := "",
            quantity := Field.text "", buyPrice := Field.text "" } ∧
      submitLabel (handleFormSubmit okEnv editing).2.formData = "Add" :=
  have h := handleFormSubmit_resets_draft okEnv editing bolt3 (Or.inl ⟨by decide, rfl⟩)
  ⟨⟨by decide, rfl⟩, h.1, h.2.1⟩

/-- C10: with a non-empty draft id that no holding of the list has, a
successful `handleFormSubmit` still performs the `PUT`, leaves the list as it
was (the response goes nowhere) and resets the draft. -/
theorem handleFormSubmit_update_absent (env : Env) (st : State) (data : Holding)
    (hid : st.formData.id ≠ "")
    (habsent : ∀ stock ∈ st.stocks, stock.id ≠ st.formData.id)
    (hok : env.put (backendURL env ++ "/" ++ st.formData.id)
      (submitPayload env st.formData) = .ok data) :
    (handleFormSubmit env st).1
        = [Effect.PUT (backendURL env ++ "/" ++ st.formData.id)
            (submitPayload env st.formData)] ∧
      (handleFormSubmit env st).2.stocks = st.stocks ∧
      (handleFormSubmit env st).2.formData = emptyDraft := by
  have hmap : st.stocks.map
      (fun stock => if stock.id = st.formData.id then data else stock) = st.stocks := by
    conv_rhs => rw [← List.map_id st.stocks]
    apply List.map_congr_left
    intro stock hmem
    simp [habsent stock hmem]
  simp [handleFormSubmit, truthy, hid, hok, hmap]

/-- C10 at the list `[acme]` with `bolt` in the form: the `PUT` goes out, the
list is still `[acme]`. -/
theorem handleFormSubmit_update_absent_witness :
    orphaned.formData.id ≠ "" ∧ acme.id ≠ orphaned.formData.id ∧
      okEnv.put (backendURL okEnv ++ "/" ++ orphaned.formData.id)
        (submitPayload okEnv orphaned.formData) = .ok bolt3 ∧
      (handleFormSubmit okEnv orphaned).1
        = [Effect.PUT "http://localhost:8080/api/stocks/7"
            (submitPayload okEnv orphaned.formData)] ∧
      (handleFormSubmit okEnv orphaned).2.stocks = [acme] ∧
      (handleFormSubmit okEnv orphaned).2.formData = emptyDraft :=
  have habsent : ∀ stock ∈ orphaned.stocks, stock.id ≠ orphaned.formData.id := by
    intro stock hmem
    rw [show orphaned.stocks = [acme] from rfl, List.mem_singleton] at hmem
    subst hmem
    decide
  ⟨by decide, by decide, rfl,
    handleFormSubmit_update_absent okEnv orphaned bolt3 (by decide) habsent rfl⟩

/-! ## Delete -/

/-- C4: a successful `handleDelete` performs one `DELETE` to the base URL
followed by a slash and the id; the new list is the old one without the
entries of that id: none of them is left, every other entry is kept, and the
kept entries are in their old order. -/
theorem handleDelete_removes (env : Env) (st : State) (id : String)
    (hok : env.delete (backendURL env ++ "/" ++ id) = .ok ()) :
    (handleDelete env st id).1 = [Effect.DELETE (backendURL env ++ "/" ++ id)] ∧
      (∀ stock ∈ (handleDelete env st id).2.stocks, stock.id ≠ id) ∧
      (∀ stock ∈ st.stocks, stock.id ≠ id → stock ∈ (handleDelete env st id).2.stocks) ∧
      (handleDelete env st id).2.stocks
        = st.stocks.filter (fun stock => decide (stock.id ≠ id)) ∧
      List.Sublist (handleDelete env st id).2.stocks st.stocks ∧
      (handleDelete env st id).2.formData = st.formData := by
  have hrun : handleDelete env st id
      = ([Effect.DELETE (backendURL env ++ "/" ++ id)],
          { st with stocks := st.stocks.filter (fun stock => decide (stock.id ≠ id)) }) := by
    simp [handleDelete, hok]
  rw [hrun]
  refine ⟨rfl, ?_, ?_, rfl, List.filter_sublist _, rfl⟩
  · intro stock hmem
    simpa using (List.mem_filter.mp hmem).2
  · intro stock hmem hne
    exact List.mem_filter.mpr ⟨hmem, by simpa using hne⟩

/-- C4 at the id `"42"`: one `DELETE` to the URL ending in `/42`, and of
`[acme, bolt]` only `bolt` is left. -/
theorem handleDelete_removes_witness :
    okEnv.delete (backendURL okEnv ++ "/" ++ "42") = .ok () ∧
      (handleDelete okEnv adding "42").1
        = [Effect.DELETE "http://localhost:8080/api/stocks/42"] ∧
      (handleDelete okEnv adding "42").2.stocks = [bolt] :=
  have h := handleDelete_removes okEnv adding "42" rfl
  ⟨rfl, h.1, h.2.2.2.1.trans (by decide)⟩

/-! ## Failure -/

/-- C7: when the remote call of `fetchStocks`, of `handleFormSubmit` (update
or create) or of `handleDelete` throws, the state after the handler is the
state before it, list and draft alike. -/
theorem failure_keeps_state (env : Env) (st : State) (id error : String) :
    (env.get (backendURL env) = .error error → (fetchStocks env st).2 = st) ∧
      (st.formData.id ≠ "" →
        env.put (backendURL env ++ "/" ++ st.formData.id)
          (submitPayload env st.formData) = .error error →
        (handleFormSubmit env st).2 = st) ∧
      (st.formData.id = "" →
        env.post (backendURL env) (submitPayload env st.formData) = .error error →
        (handleFormSubmit env st).2 = st) ∧
      (env.delete (backendURL env ++ "/" ++ id) = .error error →
        (handleDelete env st id).2 = st) := by
  refine ⟨?_, ?_, ?_, ?_⟩
  · intro h
    simp [fetchStocks, h]
  · intro hid h
    simp [handleFormSubmit, truthy, hid, h]
  · intro hid h
    simp [handleFormSubmit, truthy, hid, h]
  · intro h
    simp [handleDelete, h]

/-- C7 in a world where every call throws: fetch, update, create and delete
each leave the state they found. -/
theorem failure_keeps_state_witness :
    (fetchStocks downEnv adding).2 = adding ∧
      (handleFormSubmit downEnv editing).2 = editing ∧
      (handleFormSubmit downEnv adding).2 = adding ∧
      (handleDelete downEnv adding "42").2 = adding :=
  ⟨(failure_keeps_state downEnv adding "42" "Network Error").1 rfl,
    (failure_keeps_state downEnv editing "42" "Network Error").2.1 (by decide) rfl,
    (failure_keeps_state downEnv adding "42" "Network Error").2.2.1 rfl rfl,
    (failure_keeps_state downEnv adding "42" "Network Error").2.2.2 rfl⟩

/-! ## Typing in the form -/

/-- C9: `handleInputChange` sets the named property of the draft to the given
value, leaves every other property of the draft and the whole list as they
were; a change of `name`, `ticker`, `quantity` or `buyPrice` keeps the draft
id, hence the mode the form shows. -/
theorem handleInputChange_frame (st : State) (name value : String) :
    (handleInputChange st name value).stocks = st.stocks ∧
      (name ∈ ["id", "name", "ticker", "quantity", "buyPrice"] →
        (handleInputChange st name value).formData.get name = some (Field.text value)) ∧
      (∀ key, key ≠ name →
        (handleInputChange st name value).formData.get key = st.formData.get key) ∧
      (name ≠ "id" →
        (handleInputChange st name value).formData.id = st.formData.id ∧
        submitLabel (handleInputChange st name value).formData = submitLabel st.formData ∧
        formHeading (handleInputChange st name value).formData
          = formHeading st.formData) := by
  refine ⟨?_, ?_, ?_, ?_⟩
  · unfold handleInputChange
    split_ifs <;> rfl
  · intro hmem
    simp only [List.mem_cons, List.mem_singleton, List.not_mem_nil, or_false] at hmem
    rcases hmem with h | h | h | h | h <;> subst h <;>
      simp [handleInputChange, Draft.get]
  · intro key hne
    unfold handleInputChange
    split_ifs with h1 h2 h3 h4 h5
    · subst h1; simp [Draft.get, hne]
    · subst h2; simp [Draft.get, hne]
    · subst h3; simp [Draft.get, hne]
    · subst h4; simp [Draft.get, hne]
    · subst h5; simp [Draft.get, hne]
    · rfl
  · intro hne
    have hid : (handleInputChange st name value).formData.id = st.formData.id := by
      unfold handleInputChange
      split_ifs with h1 <;> first | exact absurd h1 hne | rfl
    simp [submitLabel, formHeading, hid]

/-- C9 at the quantity field of a form in update mode: the quantity is the
typed text, the id and the label are as before. -/
theorem handleInputChange_frame_witness :
    (handleInputChange editing "quantity" "12").stocks = [acme, bolt] ∧
      (handleInputChange editing "quantity" "12").formData.get "quantity"
        = some (Field.text "12") ∧
      (handleInputChange editing "quantity" "12").formData.id = "7" ∧
      submitLabel (handleInputChange editing "quantity" "12").formData = "Update" :=
  have h := handleInputChange_frame editing "quantity" "12"
  ⟨h.1, h.2.1 (by decide), (h.2.2.2 (by decide)).1, (h.2.2.2 (by decide)).2.1.trans (by decide)⟩

/-! ## Edit -/

/-- C5, as amended: for a holding of the list with a non-empty id and with no
holding of the same id before it, `handleEdit` on its id makes the draft a
field-by-field copy of it, keeps the list, and puts the form in update mode. -/
theorem handleEdit_copies (st : State) (h : Holding) (before after : List Holding)
    (hsplit : st.stocks = before ++ h :: after)
    (hfirst : ∀ stock ∈ before, stock.id ≠ h.id)
    (hid : h.id ≠ "") :
    ∃ st1, handleEdit st h.id = some st1 ∧
      st1.formData.id = h.id ∧ st1.formData.name = h.name ∧
      st1.formData.ticker = h.ticker ∧ st1.formData.quantity = Field.num h.quantity ∧
      st1.formData.buyPrice = Field.num h.buyPrice ∧
      st1.stocks = st.stocks ∧
      truthy st1.formData.id = true ∧
      submitLabel st1.formData = "Update" ∧ formHeading st1.formData = "Edit Stock" := by
  have hfind : st.stocks.find? (fun stock => decide (stock.id = h.id)) = some h := by
    rw [hsplit, List.find?_append]
    have hnone : before.find? (fun stock => decide (stock.id = h.id)) = none := by
      rw [List.find?_eq_none]
      intro stock hmem
      simpa using hfirst stock hmem
    simp [hnone]
  refine ⟨{ st with formData := h.toDraft }, ?_, rfl, rfl, rfl, rfl, rfl, rfl, ?_, ?_, ?_⟩
  · simp [handleEdit, hfind]
  · simp [truthy, Holding.toDraft, hid]
  · simp [submitLabel, truthy, Holding.toDraft, hid]
  · simp [formHeading, truthy, Holding.toDraft, hid]

/-- C5 at the second of two holdings with distinct ids. -/
theorem handleEdit_copies_witness :
    ∃ st1, handleEdit adding bolt.id = some st1 ∧
      st1.formData.id = "7" ∧ st1.formData.name = "Bolt" ∧
      st1.formData.ticker = "BLT" ∧ st1.formData.quantity = Field.num bolt.quantity ∧
      st1.formData.buyPrice = Field.num bolt.buyPrice ∧
      st1.stocks = [acme, bolt] ∧
      truthy st1.formData.id = true ∧
      submitLabel st1.formData = "Update" ∧ formHeading st1.formData = "Edit Stock" :=
  handleEdit_copies adding bolt [acme] [] rfl
    (by
      intro stock hmem
      rw [List.mem_singleton] at hmem
      subst hmem
      decide)
    (by decide)

/-- C5 as stated fails twice. With two holdings under one id, `handleEdit` on
the id of the second puts the first in the draft; and for a holding whose id is
empty the form stays in create mode. -/
theorem handleEdit_not_every_holding :
    (twin ∈ [acme, twin] ∧
      handleEdit { stocks := [acme, twin], formData := emptyDraft } twin.id
        = some { stocks := [acme, twin], formData := acme.toDraft } ∧
      acme.toDraft.name ≠ twin.name) ∧
    (blank ∈ [blank] ∧
      handleEdit { stocks := [blank], formData := emptyDraft } blank.id
        = some { stocks := [blank], formData := blank.toDraft } ∧
      submitLabel blank.toDraft = "Add" ∧ formHeading blank.toDraft = "Add Stock") := by
  refine ⟨⟨by simp, by rfl, by decide⟩, ⟨by simp, by rfl, by decide, by decide⟩⟩

/-! ## The ids of the list -/

/-- A step keeps the ids of the list non-empty, when the backend it meets
hands out non-empty ids. -/
theorem step_ids_nonempty (st st1 : State) (ev : Event)
    (hbackend : ∀ env, ev.env? = some env → env.AssignsIds)
    (hinv : ∀ h ∈ st.stocks, h.id ≠ "")
    (hstep : step st ev = some st1) :
    ∀ h ∈ st1.stocks, h.id ≠ "" := by
  cases ev with
  | fetch env =>
    obtain ⟨hget, -, -⟩ := hbackend env rfl
    simp only [step, Option.some.injEq] at hstep
    subst hstep
    unfold fetchStocks
    cases hres : env.get (backendURL env) with
    | ok data => exact hget _ data hres
    | error error => exact hinv
  | change name value =>
    simp only [step, Option.some.injEq] at hstep
    subst hstep
    have hsame : (handleInputChange st name value).stocks = st.stocks := by
      unfold handleInputChange
      split_ifs <;> rfl
    rw [hsame]
    exact hinv
  | submit env =>
    obtain ⟨-, hpost, hput⟩ := hbackend env rfl
    simp only [step, Option.some.injEq] at hstep
    subst hstep
    unfold handleFormSubmit
    by_cases hmode : truthy st.formData.id = true
    · simp only [hmode, if_true]
      cases hres : env.put (backendURL env ++ "/" ++ st.formData.id)
          (submitPayload env st.formData) with
      | ok data =>
        intro h hmem
        obtain ⟨stock, hstock, rfl⟩ := List.mem_map.mp hmem
        by_cases hmatch : stock.id = st.formData.id
        · simp only [hmatch, if_true]
          exact hput _ _ data hres
        · simp only [hmatch, if_false]
          exact hinv stock hstock
      | error error => exact hinv
    · simp only [hmode, Bool.false_eq_true, if_false]
      cases hres : env.post (backendURL env) (submitPayload env st.formData) with
      | ok data =>
        intro h hmem
        rcases List.mem_append.mp hmem with hold | hnew
        · exact hinv h hold
        · rw [List.mem_singleton.mp hnew]
          exact hpost _ _ data hres
      | error error => exact hinv
  | edit id =>
    unfold step handleEdit at hstep
    cases hfind : st.stocks.find? (fun stock => decide (stock.id = id)) with
    | none => simp [hfind] at hstep
    | some stock =>
      simp only [hfind, Option.some.injEq] at hstep
      subst hstep
      exact hinv
  | delete env id =>
    simp only [step, Option.some.injEq] at hstep
    subst hstep
    cases hres : env.delete (backendURL env ++ "/" ++ id) with
    | ok u =>
      intro h hmem
      simp only [handleDelete, hres] at hmem
      exact hinv h (List.mem_filter.mp hmem).1
    | error error =>
      simp only [handleDelete, hres]
      exact hinv

/-- A run keeps the ids of the list non-empty, under the same condition. -/
theorem run_keeps_ids_nonempty (evs : List Event) (st st1 : State)
    (hbackend : ∀ ev ∈ evs, ∀ env, ev.env? = some env → env.AssignsIds)
    (hinv : ∀ h ∈ st.stocks, h.id ≠ "")
    (hrun : run st evs = some st1) :
    ∀ h ∈ st1.stocks, h.id ≠ "" := by
  induction evs generalizing st with
  | nil =>
    simp only [run, Option.some.injEq] at hrun
    subst hrun
    exact hinv
  | cons ev evs ih =>
    simp only [run] at hrun
    cases hstep : step st ev with
    | none => simp [hstep] at hrun
    | some st2 =>
      simp only [hstep, Option.some_bind] at hrun
      exact ih st2 (fun ev1 hmem => hbackend ev1 (List.mem_cons_of_mem _ hmem))
        (step_ids_nonempty st st2 ev (hbackend ev (List.mem_cons_self _ _)) hinv hstep) hrun

/-- C6, as amended: when every backend answer carries non-empty ids, every
state reached from the initial state by a sequence of fetches, field changes,
submits, edits and deletes has non-empty ids all over its list. -/
theorem reachable_ids_nonempty (evs : List Event) (st : State)
    (hbackend : ∀ ev ∈ evs, ∀ env, ev.env? = some env → env.AssignsIds)
    (hrun : run State.init evs = some st) :
    ∀ h ∈ st.stocks, h.id ≠ "" :=
  run_keeps_ids_nonempty evs State.init st hbackend (by simp [State.init]) hrun

/-- C6 as stated fails: one fetch answered with a holding without an id, and
the list holds an empty id. -/
theorem reachable_empty_id :
    run State.init [Event.fetch blankEnv]
        = some { stocks := [blank], formData := emptyDraft } ∧
      blank ∈ [blank] ∧ blank.id = "" := by
  refine ⟨by rfl, by simp, by rfl⟩

/-- The backend of `okEnv` hands out non-empty ids. -/
theorem okEnv_assignsIds : okEnv.AssignsIds := by
  refine ⟨?_, ?_, ?_⟩
  · intro url data hget h hmem
    have hdata : data = [acme, bolt] := by
      simpa [okEnv] using hget.symm
    subst hdata
    simp only [List.mem_cons, List.mem_singleton, List.not_mem_nil, or_false] at hmem
    rcases hmem with rfl | rfl <;> decide
  · intro url body data hpost
    have hdata : data = core := by
      simpa [okEnv] using hpost.symm
    subst hdata
    decide
  · intro url body data hput
    have hdata : data = bolt3 := by
      simpa [okEnv] using hput.symm
    subst hdata
    decide

/-- C6 along a run of all five kinds of event against `okEnv`: a fetch, a
typed name, a create, an edit of `bolt`, and the deletion of `acme`. -/
theorem reachable_ids_nonempty_witness :
    run State.init [Event.fetch okEnv, Event.change "name" "Core", Event.submit okEnv,
        Event.edit "7", Event.delete okEnv "42"]
        = some { stocks := [bolt, core], formData := bolt.toDraft } ∧
      bolt.id ≠ "" ∧ core.id ≠ "" :=
  have hrun : run State.init [Event.fetch okEnv, Event.change "name" "Core",
      Event.submit okEnv, Event.edit "7", Event.delete okEnv "42"]
      = some { stocks := [bolt, core], formData := bolt.toDraft } := by rfl
  have hids := reachable_ids_nonempty _ _
    (by
      intro ev hmem env henv
      simp only [List.mem_cons, List.mem_singleton, List.not_mem_nil, or_false] at hmem
      rcases hmem with rfl | rfl | rfl | rfl | rfl <;>
        simp only [Event.env?, Option.some.injEq] at henv <;>
        first
          | (subst henv; exact okEnv_assignsIds)
          | exact absurd henv (by simp))
    hrun
  ⟨hrun, hids bolt (by simp), hids core (by simp)⟩

end App
